import Mathlib

/-!
Shallow embedding of the simpliTask application's search, sort, inline-edit
and reducer logic.  Strings are modelled as `List Char`; JavaScript numbers
that can be `NaN` are modelled by `JSNum`.  Definitions marked
"Modelled from the spec" embed components whose implementation files are not
part of the sources at hand (only their tests are); they follow the
specification's contract for those components.  All other definitions are
translated directly from the in-repo reducer and test fixtures.
-/

namespace SimpliTask

/-- Whitespace recognised by query trimming (space, tab, newline, CR). -/
def isWs (c : Char) : Bool := c = ' ' || c = '\t' || c = '\n' || c = '\r'

/-- Trim leading and trailing whitespace, as JavaScript `String.prototype.trim`. -/
def trimL (s : List Char) : List Char :=
  ((s.dropWhile isWs).reverse.dropWhile isWs).reverse

/-- Lowercase every character, as JavaScript `String.prototype.toLowerCase`
on the ASCII strings used by the application. -/
def toLowerL (s : List Char) : List Char := s.map Char.toLower

/-- Prefix test on character lists. -/
def isPrefixL : List Char → List Char → Bool
  | [], _ => true
  | _ :: _, [] => false
  | a :: as, b :: bs => a == b && isPrefixL as bs

/-- Substring containment, as JavaScript `String.prototype.includes`:
`containsL hay needle` is true when `needle` occurs contiguously in `hay`. -/
def containsL : List Char → List Char → Bool
  | [], needle => needle.isEmpty
  | c :: t, needle => isPrefixL needle (c :: t) || containsL t needle

/-- A JavaScript number that may be `NaN`. -/
inductive JSNum
  | nan
  | num (n : Int)
deriving DecidableEq

/-- Value of a list of decimal digits. -/
def digitsVal (s : List Char) : Nat :=
  s.foldl (fun acc c => acc * 10 + (c.toNat - 48)) 0

/-- JavaScript `Number(value)` on the string inputs the application feeds it:
whitespace-only input yields `0`, an (optionally negated) decimal integer
literal yields its value, anything else yields `NaN`. -/
def jsNumber (s : List Char) : JSNum :=
  let t := trimL s
  if t = [] then .num 0
  else if t.all Char.isDigit then .num (digitsVal t)
  else match t with
    | '-' :: c :: rest =>
      if (c :: rest).all Char.isDigit then .num (-(digitsVal (c :: rest) : Int)) else .nan
    | _ => .nan

/-- JavaScript `x || 0` applied to a number: `NaN` (falsy) is replaced by `0`;
`0 || 0` is `0`; any other number is returned unchanged. -/
def jsOrZero : JSNum → JSNum
  | .nan => .num 0
  | .num n => .num n

/-- A task record, as in the application state and test fixtures:
`id`, `date` and `project` (a foreign project id, possibly empty) are strings,
`name` may be `undefined`, and `progress` is a number that the reducer can set
to `NaN`. -/
structure Task where
  id : List Char
  name : Option (List Char)
  date : List Char
  project : List Char
  progress : JSNum
deriving DecidableEq

/-- A project record as the task-table lookup consumes it: an id and a
display name. -/
structure Project where
  id : List Char
  name : List Char
deriving DecidableEq

/-! ### Search / filter (Searchbar) -/

/-- Normalized query: trim then lowercase. -/
def normalizeQuery (raw : List Char) : List Char := toLowerL (trimL raw)

/-- Does a task match a normalized query?  A task with an absent name never
matches; otherwise its lowercased name must contain the query. -/
def matchesQuery (q : List Char) (t : Task) : Bool :=
  match t.name with
  | none => false
  | some n => containsL (toLowerL n) q

/-- Modelled from the spec: the Searchbar's filter (its component file is not
among the sources, only its tests).  `filter(items, rawQuery)` normalizes the
query (trim, lowercase); an empty normalized query yields the empty result;
otherwise it keeps exactly the items whose present, lowercased name contains
the normalized query as a substring. -/
def filterTasks (items : List Task) (raw : List Char) : List Task :=
  let q := normalizeQuery raw
  if q = [] then [] else items.filter (matchesQuery q)

/-- What the Searchbar renders below the input. -/
inductive SearchDisplay
  | nothing
  | noMatches
  | results (items : List Task)
deriving DecidableEq

/-- Modelled from the spec: an empty normalized query renders nothing (no
list, no message); a non-empty query with zero hits renders the explicit
"no matching tasks" empty state; otherwise the match list is rendered. -/
def searchDisplay (items : List Task) (raw : List Char) : SearchDisplay :=
  let q := normalizeQuery raw
  if q = [] then .nothing
  else match items.filter (matchesQuery q) with
    | [] => .noMatches
    | ts => .results ts

/-- The Searchbar's own state: the current query text (the rendered result
set is derived from it via `searchDisplay`). -/
structure SearchState where
  query : List Char
deriving DecidableEq

/-- Modelled from the spec: the outside-click detector.  On a document click
it determines whether the event target lies within the searchbar's bound
region; if not, it invokes the clear callback, which resets the query text
(and with it the derived result display). -/
def handleDocumentClick (st : SearchState) (targetInsideBar : Bool) : SearchState :=
  if targetInsideBar then st else { query := [] }

/-! ### Sortable task table (TasksPage) -/

/-- Sort direction of the tasks table. -/
inductive Direction
  | asc
  | desc
deriving DecidableEq

/-- The task-table columns that carry a sort button in the rendered header. -/
inductive Column
  | name
  | date
  | project
deriving DecidableEq

/-- The table's ephemeral sort state: the currently sorted column (none
before any header click) and the current direction. -/
structure SortState where
  column : Option Column
  direction : Direction
deriving DecidableEq

/-- Flip a sort direction. -/
def flipDirection : Direction → Direction
  | .asc => .desc
  | .desc => .asc

/-- Modelled from the spec: the header-click toggle rule of the tasks table
(the page component file is not among the sources, only its tests).
Clicking the currently-sorted column flips the direction; clicking any other
column selects it with the fixed initial direction, descending. -/
def clickColumn (st : SortState) (c : Column) : SortState :=
  if st.column = some c then { column := some c, direction := flipDirection st.direction }
  else { column := some c, direction := .desc }

/-- Locale-naive lexicographic strict order on strings (code-point order),
as JavaScript string comparison uses. -/
def lexLt : List Char → List Char → Bool
  | [], [] => false
  | [], _ :: _ => true
  | _ :: _, [] => false
  | a :: as, b :: bs =>
    if a.toNat < b.toNat then true
    else if b.toNat < a.toNat then false
    else lexLt as bs

/-- Chronological key of an ISO-format `YYYY-MM-DD` date string: the number
formed by its digits, which orders such strings by date value.  Modelled from
the spec: the date column compares date values, not the raw strings. -/
def dateValue (s : List Char) : Nat := digitsVal (s.filter Char.isDigit)

/-- Resolve a task's foreign project id through the project table to a
display name; an unresolved id (including the empty id of a task with no
project) yields the placeholder sentinel `"-"`. -/
def lookupName (projects : List Project) (pid : List Char) : List Char :=
  match projects.find? (fun p => decide (p.id = pid)) with
  | some p => p.name
  | none => ['-']

/-- Sort key of the name column; a missing name is keyed like the empty
string. -/
def nameKey (t : Task) : List Char := t.name.getD []

/-- Modelled from the spec: the per-column strict comparison of the tasks
table.  The name column compares the name strings lexicographically, the date
column compares chronological date values, and the project column resolves
each foreign id through the project table (placeholder `"-"` when unresolved)
and compares the display strings. -/
def taskLt (projects : List Project) : Column → Task → Task → Bool
  | .name, a, b => lexLt (nameKey a) (nameKey b)
  | .date, a, b => decide (dateValue a.date < dateValue b.date)
  | .project, a, b =>
      lexLt (lookupName projects a.project) (lookupName projects b.project)

/-- Non-strict "may precede" relation realising a direction: in ascending
order `a` may precede `b` unless `b`'s key is strictly smaller, in descending
order unless `a`'s key is strictly smaller. -/
def taskLe (projects : List Project) (c : Column) (dir : Direction) (a b : Task) : Bool :=
  match dir with
  | .asc => !(taskLt projects c b a)
  | .desc => !(taskLt projects c a b)

/-- Modelled from the spec: `sort(items, column, direction, lookupTable)`.
A stable sort of the task list by the chosen column and direction (the spec
requires stability: equal keys keep their original relative order, as
JavaScript `Array.prototype.sort` guarantees). -/
def sortTasks (projects : List Project) (c : Column) (dir : Direction)
    (tasks : List Task) : List Task :=
  List.insertionSort (fun a b => taskLe projects c dir a b = true) tasks

/-! ### Task reducer (from the in-repo tasksReducer) -/

/-- The editable fields of a task, as dispatched by the edit action. -/
inductive Field
  | name
  | date
  | project
  | progress
deriving DecidableEq

/-- The value held by one task field, used to state frame conditions. -/
inductive FieldVal
  | vName (v : Option (List Char))
  | vStr (v : List Char)
  | vNum (v : JSNum)
deriving DecidableEq

/-- Read one field of a task. -/
def fieldVal (t : Task) : Field → FieldVal
  | .name => .vName t.name
  | .date => .vStr t.date
  | .project => .vStr t.project
  | .progress => .vNum t.progress

/-- The spread-update of the reducer's edit case,
`{ ...t, [field]: field === "progress" ? Number(value) : value }`:
the named field is replaced (the progress field through `Number`), every
other field is kept. -/
def setField (t : Task) (f : Field) (v : List Char) : Task :=
  match f with
  | .name => { t with name := some v }
  | .date => { t with date := v }
  | .project => { t with project := v }
  | .progress => { t with progress := jsNumber v }

/-- Payload of the add action: the form's field values (all strings). -/
structure AddPayload where
  name : List Char
  date : List Char
  project : List Char
  progress : List Char

/-- The reducer's `tasks/add` case: appends a new task built from the
payload, with `progress: Number(progress) || 0`. -/
def tasksAdd (tasks : List Task) (newId : List Char) (p : AddPayload) : List Task :=
  tasks ++ [{ id := newId, name := some p.name, date := p.date, project := p.project,
              progress := jsOrZero (jsNumber p.progress) }]

/-- The reducer's `tasks/edit` case: maps over the list, updating the named
field of every task whose stringified id equals the stringified given id. -/
def tasksEdit (tasks : List Task) (id : List Char) (f : Field) (v : List Char) : List Task :=
  tasks.map (fun t => if t.id = id then setField t f v else t)

/-- The reducer's `tasks/remove` case: keeps exactly the tasks whose
stringified id differs from the given id. -/
def tasksRemove (tasks : List Task) (id : List Char) : List Task :=
  tasks.filter (fun t => decide (t.id ≠ id))

/-! ### Inline edit session (TasksPage) -/

/-- A transient edit session: the row, the field being edited, and the text
currently typed in the edit control. -/
structure EditSession where
  rowId : List Char
  field : Field
  draft : List Char
deriving DecidableEq

/-- The tasks page state the inline-edit controller acts on: the task list
and the at-most-one cell currently in editing state. -/
structure TasksPageState where
  tasks : List Task
  editing : Option EditSession

/-- Modelled from the spec: commit-on-blur.  When the editing control loses
focus, the typed value is committed through the edit operation of the task
reducer and the cell returns to viewing state (the edit control unmounts);
blur with no open session changes nothing. -/
def onBlur (ps : TasksPageState) : TasksPageState :=
  match ps.editing with
  | none => ps
  | some es => { tasks := tasksEdit ps.tasks es.rowId es.field es.draft, editing := none }

/-! ### Progress-to-status mapping (CalendarPage) -/

/-- Task status derived from progress. -/
inductive Status
  | todo
  | ongoing
  | complete
deriving DecidableEq

/-- Modelled from the spec: the pure progress-to-status mapping of the
calendar page: `0 → Todo`, strictly between `0` and `100` → `Ongoing`,
`≥ 100 → Complete`. -/
def statusFromProgress (p : Int) : Status :=
  if 100 ≤ p then .complete else if 0 < p then .ongoing else .todo

/-- The blue event color of `Todo` tasks. -/
def colorBlue : List Char := "#2563eb".data

/-- The amber event color of `Ongoing` tasks. -/
def colorAmber : List Char := "#f59e0b".data

/-- The green event color of `Complete` tasks. -/
def colorGreen : List Char := "#16a34a".data

/-- Modelled from the spec and the colors the calendar test pins: the pure
progress-to-color mapping, aligned with `statusFromProgress`. -/
def colorFromProgress (p : Int) : List Char :=
  if 100 ≤ p then colorGreen else if 0 < p then colorAmber else colorBlue

/-! ### Fixtures (from the spec's scenarios and the test files) -/

/-- Scenario item `{id:1, name:"Pay bills"}`. -/
def c1Task1 : Task := ⟨"1".data, some "Pay bills".data, [], [], .num 0⟩

/-- Scenario item `{id:2, name:"Review PRs"}`. -/
def c1Task2 : Task := ⟨"2".data, some "Review PRs".data, [], [], .num 0⟩

/-- Scenario item `{id:3, name:undefined}`. -/
def c1Task3 : Task := ⟨"3".data, none, [], [], .num 0⟩

/-- The spec's three-item search scenario list. -/
def c1Items : List Task := [c1Task1, c1Task2, c1Task3]

/-- The tasks-page test's project fixture. -/
def fxProjects : List Project := [⟨"p1".data, "Alpha".data⟩, ⟨"p2".data, "Beta".data⟩]

/-- Test fixture task t1. -/
def fxT1 : Task := ⟨"t1".data, some "Write docs".data, "2025-11-10".data, "p1".data, .num 10⟩

/-- Test fixture task t2. -/
def fxT2 : Task := ⟨"t2".data, some "Fix bugs".data, "2025-11-05".data, "p2".data, .num 80⟩

/-- Test fixture task t3 (empty project id). -/
def fxT3 : Task := ⟨"t3".data, some "Build UI".data, "2025-11-20".data, [], .num 0⟩

/-- The tasks-page test's task fixture. -/
def fxTasks : List Task := [fxT1, fxT2, fxT3]

/-- A task titled "Same", used to exhibit equal sort keys. -/
def cxA : Task := ⟨"a".data, some "Same".data, [], [], .num 0⟩

/-- A second, distinct task also titled "Same". -/
def cxB : Task := ⟨"b".data, some "Same".data, [], [], .num 0⟩

/-- A task with progress 50, used to exhibit the edit-case NaN behaviour. -/
def cxTask50 : Task := ⟨"t1".data, some "Fix bugs".data, [], [], .num 50⟩

/-- A concrete open edit session: editing the name cell of row t1. -/
def cxSession : EditSession := ⟨"t1".data, .name, "X".data⟩

/-- A concrete page state with one task and the session `cxSession` open. -/
def cxPage : TasksPageState := ⟨[fxT1], some cxSession⟩

/-! ### Order-theoretic facts about the comparators -/

/-- Characters with equal code points are equal. -/
theorem char_eq_of_toNat_eq {a b : Char} (h : a.toNat = b.toNat) : a = b := by
  apply Char.eq_of_val_eq
  apply UInt32.ext
  simpa [Char.toNat, UInt32.toNat] using h

/-- `lexLt` is asymmetric. -/
theorem lexLt_asymm (x : List Char) : ∀ y, lexLt x y = true → lexLt y x = false := by
  induction x with
  | nil =>
    intro y h
    cases y with
    | nil => simpa [lexLt] using h
    | cons b bs => simp [lexLt]
  | cons a as ih =>
    intro y h
    cases y with
    | nil => simpa [lexLt] using h
    | cons b bs =>
      simp only [lexLt] at h ⊢
      by_cases h1 : a.toNat < b.toNat
      · have h2 : ¬ b.toNat < a.toNat := by omega
        simp [h1, h2]
      · by_cases h2 : b.toNat < a.toNat
        · simp [h1, h2] at h
        · simp only [if_neg h1, if_neg h2] at h ⊢
          exact ih bs h

/-- `lexLt` is transitive. -/
theorem lexLt_trans (x : List Char) :
    ∀ y z, lexLt x y = true → lexLt y z = true → lexLt x z = true := by
  induction x with
  | nil =>
    intro y z hxy hyz
    cases y with
    | nil => simpa [lexLt] using hxy
    | cons b bs =>
      cases z with
      | nil => simpa [lexLt] using hyz
      | cons c cs => simp [lexLt]
  | cons a as ih =>
    intro y z hxy hyz
    cases y with
    | nil => simpa [lexLt] using hxy
    | cons b bs =>
      cases z with
      | nil => simpa [lexLt] using hyz
      | cons c cs =>
        simp only [lexLt] at hxy hyz ⊢
        by_cases hab : a.toNat < b.toNat <;> by_cases hbc : b.toNat < c.toNat
        · have : a.toNat < c.toNat := by omega
          simp [this]
        · by_cases hcb : c.toNat < b.toNat
          · simp [hab, hbc, hcb] at hyz
          · have hbceq : b.toNat = c.toNat := by omega
            have : a.toNat < c.toNat := by omega
            simp [this]
        · by_cases hba : b.toNat < a.toNat
          · simp [hab, hba] at hxy
          · have : a.toNat < c.toNat := by omega
            simp [this]
        · by_cases hba : b.toNat < a.toNat
          · simp [hab, hba] at hxy
          · by_cases hcb : c.toNat < b.toNat
            · simp [hbc, hcb] at hyz
            · have hac : ¬ a.toNat < c.toNat := by omega
              have hca : ¬ c.toNat < a.toNat := by omega
              simp only [if_neg hab, if_neg hba] at hxy
              simp only [if_neg hbc, if_neg hcb] at hyz
              simp only [if_neg hac, if_neg hca]
              exact ih bs cs hxy hyz

/-- Strings neither of which is lexicographically below the other are equal. -/
theorem lexLt_eq_of_not (x : List Char) :
    ∀ y, lexLt x y = false → lexLt y x = false → x = y := by
  induction x with
  | nil =>
    intro y hxy _
    cases y with
    | nil => rfl
    | cons b bs => simp [lexLt] at hxy
  | cons a as ih =>
    intro y hxy hyx
    cases y with
    | nil => simp [lexLt] at hyx
    | cons b bs =>
      simp only [lexLt] at hxy hyx
      by_cases hab : a.toNat < b.toNat
      · simp [hab] at hxy
      · by_cases hba : b.toNat < a.toNat
        · simp [hba] at hyx
        · simp only [if_neg hab, if_neg hba] at hxy hyx
          have : a = b := char_eq_of_toNat_eq (by omega)
          rw [this, ih bs hxy hyx]

/-- Negative transitivity of `lexLt`. -/
theorem lexLt_neg_trans {a b c : List Char} (hba : lexLt b a = false)
    (hcb : lexLt c b = false) : lexLt c a = false := by
  cases hca : lexLt c a with
  | false => rfl
  | true =>
    cases hbc : lexLt b c with
    | true =>
      rw [lexLt_trans b c a hbc hca] at hba
      cases hba
    | false =>
      rw [← lexLt_eq_of_not b c hbc hcb] at hca
      rw [hca] at hba
      cases hba

/-- The per-column strict comparison is asymmetric. -/
theorem taskLt_asymm (P : List Project) (col : Column) {a b : Task}
    (h : taskLt P col a b = true) : taskLt P col b a = false := by
  cases col <;> simp only [taskLt] at h ⊢
  · exact lexLt_asymm _ _ h
  · simp only [decide_eq_true_eq] at h
    rw [decide_eq_false_iff_not]
    omega
  · exact lexLt_asymm _ _ h

/-- Negative transitivity of the per-column strict comparison. -/
theorem taskLt_neg_trans (P : List Project) (col : Column) {a b c : Task}
    (hba : taskLt P col b a = false) (hcb : taskLt P col c b = false) :
    taskLt P col c a = false := by
  cases col <;> simp only [taskLt] at hba hcb ⊢
  · exact lexLt_neg_trans hba hcb
  · rw [decide_eq_false_iff_not] at hba hcb ⊢
    omega
  · exact lexLt_neg_trans hba hcb

/-- The direction-aware comparator is total. -/
theorem taskLe_total (P : List Project) (col : Column) (dir : Direction) (a b : Task) :
    taskLe P col dir a b = true ∨ taskLe P col dir b a = true := by
  cases dir <;> simp only [taskLe, Bool.not_eq_true']
  · cases h : taskLt P col b a
    · exact Or.inl rfl
    · exact Or.inr (taskLt_asymm P col h)
  · cases h : taskLt P col a b
    · exact Or.inl rfl
    · exact Or.inr (taskLt_asymm P col h)

/-- The direction-aware comparator is transitive. -/
theorem taskLe_trans (P : List Project) (col : Column) (dir : Direction) {a b c : Task}
    (hab : taskLe P col dir a b = true) (hbc : taskLe P col dir b c = true) :
    taskLe P col dir a c = true := by
  cases dir <;> simp only [taskLe, Bool.not_eq_true'] at hab hbc ⊢
  · exact taskLt_neg_trans P col hab hbc
  · exact taskLt_neg_trans P col hbc hab

/-- Sorting permutes the task list. -/
theorem sortTasks_perm (P : List Project) (col : Column) (dir : Direction) (tasks : List Task) :
    List.Perm (sortTasks P col dir tasks) tasks :=
  List.perm_insertionSort _ _

/-- The sort output is ordered by the direction-aware comparator. -/
theorem sortTasks_sorted (P : List Project) (col : Column) (dir : Direction) (tasks : List Task) :
    (sortTasks P col dir tasks).Pairwise (fun a b => taskLe P col dir a b = true) := by
  haveI : IsTotal Task (fun a b => taskLe P col dir a b = true) := ⟨taskLe_total P col dir⟩
  haveI : IsTrans Task (fun a b => taskLe P col dir a b = true) :=
    ⟨fun _ _ _ => taskLe_trans P col dir⟩
  exact List.sorted_insertionSort _ tasks

/-- On a list whose keys in the chosen column are pairwise distinct, the
ascending sort is exactly the reverse of the descending sort. -/
theorem sort_asc_eq_reverse_sort_desc (P : List Project) (col : Column) (tasks : List Task)
    (hdist : tasks.Pairwise fun a b => taskLt P col a b = true ∨ taskLt P col b a = true) :
    sortTasks P col .asc tasks = (sortTasks P col .desc tasks).reverse := by
  have hpermD := sortTasks_perm P col .desc tasks
  have hpermA := sortTasks_perm P col .asc tasks
  have hsortD := sortTasks_sorted P col .desc tasks
  have hsortA := sortTasks_sorted P col .asc tasks
  have hsym : Symmetric (fun a b : Task => taskLt P col a b = true ∨ taskLt P col b a = true) :=
    fun _ _ h => h.symm
  have hdistD := (hpermD.pairwise_iff fun hab => hsym hab).mpr hdist
  have hdistA := (hpermA.pairwise_iff fun hab => hsym hab).mpr hdist
  have hstrictD : (sortTasks P col .desc tasks).Pairwise
      (fun a b => taskLt P col b a = true) := by
    refine (hsortD.and hdistD).imp ?_
    rintro a b ⟨hle, hne⟩
    simp only [taskLe, Bool.not_eq_true'] at hle
    exact hne.resolve_left (by rw [hle]; exact fun h => Bool.noConfusion h)
  have hstrictA : (sortTasks P col .asc tasks).Pairwise
      (fun a b => taskLt P col a b = true) := by
    refine (hsortA.and hdistA).imp ?_
    rintro a b ⟨hle, hne⟩
    simp only [taskLe, Bool.not_eq_true'] at hle
    exact hne.resolve_right (by rw [hle]; exact fun h => Bool.noConfusion h)
  haveI : IsAntisymm Task (fun a b => taskLt P col a b = true) :=
    ⟨fun a b h1 h2 => by rw [taskLt_asymm P col h1] at h2; cases h2⟩
  refine List.eq_of_perm_of_sorted ?_ hstrictA ?_
  · exact (hpermA.trans hpermD.symm).trans (List.reverse_perm _).symm
  · exact List.pairwise_reverse.mpr hstrictD

/-! ### Claim theorems -/

/-- Claim C1: for every item list and every raw query whose normalization
(trim then lowercase) is non-empty, the filter returns exactly the items
whose name field is present and whose lowercased name contains the
normalized query as a substring; items with an absent name are excluded
(the filter is a total function, so no error is raised).  Concretely, on
the spec's three-item scenario with raw query `"  re  "`, the match set is
exactly the task with id 2. -/
theorem filter_returns_exact_matches :
    (∀ (items : List Task) (raw : List Char), normalizeQuery raw ≠ [] →
      ∀ t : Task, t ∈ filterTasks items raw ↔
        t ∈ items ∧ ∃ n, t.name = some n ∧
          containsL (toLowerL n) (normalizeQuery raw) = true) ∧
    filterTasks c1Items "  re  ".data = [c1Task2] := by
  constructor
  · intro items raw hq t
    simp only [filterTasks, if_neg hq, List.mem_filter]
    constructor
    · rintro ⟨ht, hm⟩
      refine ⟨ht, ?_⟩
      cases hn : t.name with
      | none => simp [matchesQuery, hn] at hm
      | some n =>
        refine ⟨n, rfl, ?_⟩
        simpa [matchesQuery, hn] using hm
    · rintro ⟨ht, n, hn, hc⟩
      exact ⟨ht, by simp [matchesQuery, hn, hc]⟩
  · decide

/-- Witness for C1: the characterization applied to the concrete scenario. -/
theorem filter_returns_exact_matches_witness :
    c1Task2 ∈ filterTasks c1Items "  re  ".data ↔
      c1Task2 ∈ c1Items ∧ ∃ n, c1Task2.name = some n ∧
        containsL (toLowerL n) (normalizeQuery "  re  ".data) = true :=
  filter_returns_exact_matches.1 c1Items "  re  ".data (by decide) c1Task2

/-- Claim C2: for every searchbar state (any current query text, hence any
displayed result set) and every item list, a document click whose target is
outside the bound region resets the query text to empty, upon which the
derived display renders nothing and the filter result set is empty. -/
theorem outside_click_clears (st : SearchState) (items : List Task) :
    (handleDocumentClick st false).query = [] ∧
    searchDisplay items (handleDocumentClick st false).query = .nothing ∧
    filterTasks items (handleDocumentClick st false).query = [] :=
  ⟨rfl, rfl, rfl⟩

/-- Counterexample for C3: on two tasks with the same name, the first click
on the previously-unsorted name column does select descending order and the
second click does flip to ascending; but because the sort is stable (the
spec itself requires original relative order for equal keys), both
directions keep the tied tasks in original order, so the second sort's
output is not the reverse of the first's. -/
theorem sort_twice_reverse_counterexample :
    clickColumn ⟨none, .asc⟩ .name = ⟨some .name, .desc⟩ ∧
    clickColumn ⟨some .name, .desc⟩ .name = ⟨some .name, .asc⟩ ∧
    ¬ (sortTasks [] .name .asc [cxA, cxB] =
        (sortTasks [] .name .desc [cxA, cxB]).reverse) := by decide

/-- Claim C3 (amended): the first sort of a previously-unsorted column
yields descending order, and clicking the currently-sorted column flips the
direction; when the column's sort keys are pairwise distinct across the
list, sorting the same column a second time yields exactly the reverse of
the first sort's output (with tied keys the stable sort need not reverse
them). -/
theorem sort_toggle_amended :
    (∀ (st : SortState) (c : Column), st.column ≠ some c →
        clickColumn st c = ⟨some c, .desc⟩) ∧
    (∀ (st : SortState) (c : Column),
        clickColumn (clickColumn st c) c =
          ⟨some c, flipDirection (clickColumn st c).direction⟩) ∧
    (∀ (P : List Project) (col : Column) (tasks : List Task),
        tasks.Pairwise (fun a b => taskLt P col a b = true ∨ taskLt P col b a = true) →
        sortTasks P col .asc tasks = (sortTasks P col .desc tasks).reverse) := by
  refine ⟨?_, ?_, sort_asc_eq_reverse_sort_desc⟩
  · intro st c h
    simp [clickColumn, h]
  · intro st c
    by_cases h : st.column = some c <;> simp [clickColumn, h]

/-- Witness for C3 (amended): a first click on the date column from the
unsorted state selects descending, and on the test fixture (distinct names)
the ascending name sort is the reverse of the descending one. -/
theorem sort_toggle_amended_witness :
    clickColumn ⟨none, .asc⟩ .date = ⟨some .date, .desc⟩ ∧
    sortTasks fxProjects .name .asc fxTasks =
      (sortTasks fxProjects .name .desc fxTasks).reverse :=
  ⟨sort_toggle_amended.1 ⟨none, .asc⟩ .date (by decide),
   sort_toggle_amended.2.2 fxProjects .name fxTasks (by decide)⟩

/-- Claim C4: sorting by the lookup column resolves each task's foreign id
through the project table to a display string, substituting the placeholder
sentinel "-" whenever no project matches the id (the empty id included),
then compares display strings; the function is total, so no exception can
arise, and the sorted output's display strings are ordered by their lexical
position, which on the test fixture puts "-" after "Beta","Alpha"
descending and before them ascending. -/
theorem lookup_sort_resolves_and_orders :
    (∀ (P : List Project) (pid : List Char), (∀ p ∈ P, p.id ≠ pid) →
        lookupName P pid = "-".data) ∧
    (∀ (P : List Project) (tasks : List Task),
        ((sortTasks P .project .desc tasks).map
            (fun t => lookupName P t.project)).Pairwise
          (fun x y => lexLt x y = false)) ∧
    (sortTasks fxProjects .project .desc fxTasks).map
        (fun t => lookupName fxProjects t.project) =
      ["Beta".data, "Alpha".data, "-".data] ∧
    (sortTasks fxProjects .project .asc fxTasks).map
        (fun t => lookupName fxProjects t.project) =
      ["-".data, "Alpha".data, "Beta".data] := by
  refine ⟨?_, ?_, by decide, by decide⟩
  · intro P pid h
    have hf : P.find? (fun p => decide (p.id = pid)) = none := by
      rw [List.find?_eq_none]
      intro p hp
      simp [h p hp]
    simp [lookupName, hf]
  · intro P tasks
    rw [List.pairwise_map]
    refine (sortTasks_sorted P .project .desc tasks).imp ?_
    intro a b hle
    simpa [taskLe, taskLt, Bool.not_eq_true'] using hle

/-- Witness for C4: the fixture's empty project id is unresolved and yields
the placeholder sentinel. -/
theorem lookup_sort_resolves_and_orders_witness :
    lookupName fxProjects [] = "-".data :=
  lookup_sort_resolves_and_orders.1 fxProjects [] (by decide)

/-- Claim C5: the date-column sort reorders the items (a permutation) so
that their date fields are chronologically ordered by date value — not by
the raw strings; on the fixture dates 2025-11-05 / 2025-11-20 / 2025-11-10
the descending output is exactly 2025-11-20, 2025-11-10, 2025-11-05. -/
theorem date_sort_chronological :
    (∀ (P : List Project) (tasks : List Task),
        List.Perm (sortTasks P .date .desc tasks) tasks ∧
        ((sortTasks P .date .desc tasks).map Task.date).Pairwise
          (fun x y => dateValue y ≤ dateValue x)) ∧
    (sortTasks fxProjects .date .desc fxTasks).map Task.date =
      ["2025-11-20".data, "2025-11-10".data, "2025-11-05".data] := by
  refine ⟨fun P tasks => ⟨sortTasks_perm P .date .desc tasks, ?_⟩, by decide⟩
  rw [List.pairwise_map]
  refine (sortTasks_sorted P .date .desc tasks).imp ?_
  intro a b hle
  simp only [taskLe, taskLt, Bool.not_eq_true', decide_eq_false_iff_not] at hle
  omega

/-- Counterexample for C6: on the non-numeric input "abc", the reducer's
edit case stores NaN into the progress field of the matching task (progress
was 50 before), which is neither a coercion to zero nor a rejection keeping
the previous value, while the add case coerces the same input to zero — so
no single policy is applied uniformly across add and edit. -/
theorem numeric_policy_counterexample :
    (tasksEdit [cxTask50] "t1".data .progress "abc".data).map Task.progress = [JSNum.nan] ∧
    (tasksAdd [] "t9".data ⟨"N".data, [], [], "abc".data⟩).map Task.progress = [JSNum.num 0] ∧
    JSNum.nan ≠ JSNum.num 0 ∧ JSNum.nan ≠ JSNum.num 50 ∧
    cxTask50.progress = JSNum.num 50 := by decide

/-- Claim C6 (amended): empty or whitespace-only numeric input is coerced
to zero (as `Number` already maps it to 0, both add and edit store 0); the
add operation additionally coerces any non-numeric input to zero and never
stores NaN; but the edit operation stores `Number(value)` unguarded, so
non-numeric input is committed as NaN — neither zero nor the previous
value — and the two operations therefore do not share one uniform policy
for non-numeric input. -/
theorem numeric_policy_amended :
    (∀ v : List Char, trimL v = [] → jsNumber v = .num 0) ∧
    (∀ (tasks : List Task) (newId : List Char) (p : AddPayload) (t : Task),
        t ∈ tasksAdd tasks newId p → t ∉ tasks → t.progress ≠ .nan) ∧
    (∀ (tasks : List Task) (newId : List Char) (p : AddPayload) (t : Task),
        jsNumber p.progress = .nan → t ∈ tasksAdd tasks newId p → t ∉ tasks →
        t.progress = .num 0) ∧
    (∀ (tasks : List Task) (id v : List Char) (t : Task),
        jsNumber v = .nan → t ∈ tasksEdit tasks id .progress v → t.id = id →
        t.progress = .nan) := by
  refine ⟨?_, ?_, ?_, ?_⟩
  · intro v hv
    simp [jsNumber, hv]
  · intro tasks newId p t hmem hnot
    rcases List.mem_append.mp hmem with h | h
    · exact absurd h hnot
    · rcases List.mem_singleton.mp h with rfl
      cases h' : jsNumber p.progress <;> simp [jsOrZero, h']
  · intro tasks newId p t hnan hmem hnot
    rcases List.mem_append.mp hmem with h | h
    · exact absurd h hnot
    · rcases List.mem_singleton.mp h with rfl
      simp [jsOrZero, hnan]
  · intro tasks id v t hnan hmem hid
    simp only [tasksEdit, List.mem_map] at hmem
    rcases hmem with ⟨s, hs, hst⟩
    by_cases h : s.id = id
    · rw [if_pos h] at hst
      rw [← hst]
      simpa [setField] using hnan
    · rw [if_neg h] at hst
      rw [← hst] at hid
      exact absurd hid h

/-- Witness for C6 (amended): whitespace input parses to zero, and a
non-numeric edit commit stores NaN. -/
theorem numeric_policy_amended_witness :
    jsNumber "   ".data = .num 0 ∧
    (setField cxTask50 .progress "abc".data).progress = JSNum.nan :=
  ⟨numeric_policy_amended.1 "   ".data (by decide),
   numeric_policy_amended.2.2.2 [cxTask50] "t1".data "abc".data
     (setField cxTask50 .progress "abc".data) (by decide) (by decide) (by decide)⟩

/-- Claim C7: for every page state with a cell in editing state, blur
commits the edit without an explicit save: the typed value is written back
through the reducer's edit operation to the owning task's field, the edit
session ends (the cell returns to viewing and the edit control unmounts),
and the committed value is in the resulting task list. -/
theorem commit_on_blur (ps : TasksPageState) (es : EditSession)
    (h : ps.editing = some es) :
    (onBlur ps).editing = none ∧
    (onBlur ps).tasks = tasksEdit ps.tasks es.rowId es.field es.draft ∧
    ∀ t ∈ ps.tasks, t.id = es.rowId →
      setField t es.field es.draft ∈ (onBlur ps).tasks := by
  refine ⟨?_, ?_, ?_⟩
  · simp [onBlur, h]
  · simp [onBlur, h]
  · intro t htm hid
    simp only [onBlur, h, tasksEdit]
    have := List.mem_map_of_mem
      (fun t => if t.id = es.rowId then setField t es.field es.draft else t) htm
    simpa [hid] using this

/-- Witness for C7: blurring the concrete open session commits the new name
and closes the session. -/
theorem commit_on_blur_witness :
    (onBlur cxPage).editing = none ∧
    setField fxT1 .name "X".data ∈ (onBlur cxPage).tasks :=
  ⟨(commit_on_blur cxPage cxSession rfl).1,
   (commit_on_blur cxPage cxSession rfl).2.2 fxT1 (by decide) (by decide)⟩

/-- Claim C8: any raw query normalizing to the empty string yields an empty
filter result and the display renders nothing (no list, no message); the
"no matches" empty-state message is rendered exactly when the normalized
query is non-empty and the filter has zero hits. -/
theorem empty_query_no_results (items : List Task) (raw : List Char) :
    (normalizeQuery raw = [] →
      filterTasks items raw = [] ∧ searchDisplay items raw = .nothing) ∧
    (searchDisplay items raw = .noMatches ↔
      normalizeQuery raw ≠ [] ∧ filterTasks items raw = []) := by
  constructor
  · intro h
    constructor
    · simp [filterTasks, h]
    · simp [searchDisplay, h]
  · by_cases hq : normalizeQuery raw = []
    · simp [searchDisplay, filterTasks, hq]
    · cases hfil : items.filter (matchesQuery (normalizeQuery raw)) with
      | nil => simp [searchDisplay, filterTasks, hq, hfil]
      | cons a l => simp [searchDisplay, filterTasks, hq, hfil]

/-- Witness for C8: a whitespace-only query yields an empty result and an
empty display on the scenario items. -/
theorem empty_query_no_results_witness :
    filterTasks c1Items "   ".data = [] ∧
    searchDisplay c1Items "   ".data = .nothing :=
  (empty_query_no_results c1Items "   ".data).1 (by decide)

/-- Claim C9: the progress-to-status mapping is a pure function with
progress 0 mapping to Todo (blue), progress strictly between 0 and 100 to
Ongoing (amber) and progress at least 100 to Complete (green); in
particular 0, 50 and 100 map to Todo, Ongoing and Complete. -/
theorem progress_status_mapping :
    (∀ p : Int,
      (p = 0 → statusFromProgress p = .todo ∧ colorFromProgress p = colorBlue) ∧
      (0 < p → p < 100 → statusFromProgress p = .ongoing ∧ colorFromProgress p = colorAmber) ∧
      (100 ≤ p → statusFromProgress p = .complete ∧ colorFromProgress p = colorGreen)) ∧
    statusFromProgress 0 = .todo ∧ statusFromProgress 50 = .ongoing ∧
    statusFromProgress 100 = .complete := by
  refine ⟨?_, by decide, by decide, by decide⟩
  intro p
  refine ⟨?_, ?_, ?_⟩
  · rintro rfl
    constructor <;> rfl
  · intro h1 h2
    have h3 : ¬ (100 : Int) ≤ p := by omega
    constructor <;> simp [statusFromProgress, colorFromProgress, h1, h3]
  · intro h
    constructor <;> simp [statusFromProgress, colorFromProgress, h]

/-- Witness for C9: progress 50 is Ongoing and amber. -/
theorem progress_status_mapping_witness :
    statusFromProgress 50 = .ongoing ∧ colorFromProgress 50 = colorAmber :=
  (progress_status_mapping.1 50).2.1 (by decide) (by decide)

/-- Claim C10: the edit operation rewrites the list elementwise in place —
each task whose id equals the given id becomes the same task with only the
named field replaced, every other task is unchanged, and the list order and
length are preserved (`Forall₂` pairs each input task with its output);
replacing a field touches no other field and never the id; the remove
operation yields a sublist (original relative order, untouched survivors)
containing exactly the tasks whose id differs from the given id. -/
theorem edit_remove_frame :
    (∀ (tasks : List Task) (id : List Char) (f : Field) (v : List Char),
        List.Forall₂ (fun t t' => (t.id = id → t' = setField t f v) ∧ (t.id ≠ id → t' = t))
          tasks (tasksEdit tasks id f v)) ∧
    (∀ (t : Task) (f : Field) (v : List Char),
        (setField t f v).id = t.id ∧
        ∀ g : Field, g ≠ f → fieldVal (setField t f v) g = fieldVal t g) ∧
    (∀ (tasks : List Task) (id : List Char),
        List.Sublist (tasksRemove tasks id) tasks ∧
        ∀ t : Task, t ∈ tasksRemove tasks id ↔ t ∈ tasks ∧ t.id ≠ id) := by
  refine ⟨?_, ?_, ?_⟩
  · intro tasks id f v
    induction tasks with
    | nil => exact List.Forall₂.nil
    | cons t ts ih =>
      refine List.Forall₂.cons ⟨?_, ?_⟩ ih
      · intro h
        simp [h]
      · intro h
        simp [h]
  · intro t f v
    constructor
    · cases f <;> rfl
    · intro g hg
      cases f <;> cases g <;> first | rfl | exact absurd rfl hg
  · intro tasks id
    constructor
    · exact List.filter_sublist tasks
    · intro t
      simp [tasksRemove, List.mem_filter]

/-- Witness for C10: removing t1 keeps t2, and editing the name field of a
task leaves its progress field unchanged. -/
theorem edit_remove_frame_witness :
    fxT2 ∈ tasksRemove [fxT1, fxT2] "t1".data ∧
    fieldVal (setField fxT1 .name "X".data) .progress = fieldVal fxT1 .progress :=
  ⟨((edit_remove_frame.2.2 [fxT1, fxT2] "t1".data).2 fxT2).mpr ⟨by decide, by decide⟩,
   (edit_remove_frame.2.1 fxT1 .name "X".data).2 .progress (by decide)⟩

end SimpliTask
